import Mathlib

/-!
A shallow Lean embedding of the typing-test core in `src/app.rs` of
fostersmith/term-type, together with theorems settling the frozen claims.

Modelling conventions:
* Rust `String` words are modelled as `List Char` (the spec restricts the
  program to whitespace-delimited ASCII words, where Rust's byte length and
  char count coincide).
* Rust panics (`assert_eq!`, `.expect`, out-of-bounds indexing) are modelled
  as `Except.error (Fault.panicMsg _)`: a fatal programming-error abort.
  `Fault.loadError` is the distinct recoverable typed error the spec asks
  for at word-list load time; the source never produces it.
* The global random-number generator is modelled as an oracle
  `rng : Nat → Nat` giving the chosen pool index for the n-th draw, together
  with a draw counter `rngPos`; `SliceRandom::choose` on a slice of length
  `l` yields the element at `rng n % l`, or `none` on an empty slice.
* `Instant::now()` is modelled by passing an abstract timestamp `now : Nat`
  to the operations that read the clock; `Duration` is a `Nat`, and the
  floating-point statistics are modelled over `ℚ`.
-/

namespace TermType

/-- A typed word. -/
abbrev Word := List Char

/-- Failure modes: `panicMsg` models a Rust panic (fatal assertion /
`expect` / out-of-bounds), `loadError` is the recoverable typed error the
spec requires for word-list loading; the source code never constructs it. -/
inductive Fault where
  | panicMsg (msg : String)
  | loadError (msg : String)
deriving DecidableEq

/-- Is the fault a fatal panic (as opposed to a recoverable typed error)? -/
def Fault.isPanic : Fault → Bool
  | .panicMsg _ => true
  | .loadError _ => false

/-- Rust `str::split(sep)`: splits on every occurrence of `sep`;
consecutive separators yield empty pieces, and the result is never empty. -/
def splitChar (sep : Char) : List Char → List (List Char)
  | [] => [[]]
  | c :: cs =>
    if c = sep then [] :: splitChar sep cs
    else
      match splitChar sep cs with
      | [] => [[c]]
      | w :: ws => (c :: w) :: ws

/-- The `RandomWordGenerator` of `app.rs`: materialized `words`, optional
declared `size`, candidate pool `word_list`, plus the rng oracle. -/
structure RandomWordGenerator where
  words : List Word
  size : Option Nat
  word_list : List Word
  rng : Nat → Nat
  rngPos : Nat

/-- Model of `SliceRandom::choose`: `none` on an empty slice, else the element at the
drawn index. -/
def choose (l : List Word) (k : Nat) : Option Word :=
  if l.length = 0 then none else l[k % l.length]?

/-- Model of `RandomWordGenerator::load_word_list`: reading the file is the external
collaborator, modelled by `file : Option (List Char)` (`none` = unreadable).
An unreadable file hits `.expect`, i.e. panics; readable content is split on
newlines with no filtering. -/
def load_word_list (file : Option (List Char)) : Except Fault (List Word) :=
  match file with
  | none => .error (.panicMsg "Could read word list file")
  | some s => .ok (splitChar '\n' s)

/-- Model of `RandomWordGenerator::get_random_word`: draws one word from the pool;
`.expect` on an empty pool panics. Returns the word and the stepped rng. -/
def RandomWordGenerator.get_random_word (g : RandomWordGenerator) :
    Except Fault (Word × RandomWordGenerator) :=
  match choose g.word_list (g.rng g.rngPos) with
  | none => .error (.panicMsg "expected to return a random word")
  | some w => .ok (w, { g with rngPos := g.rngPos + 1 })

/-- Model of `RandomWordGenerator::add_words`: draw and append `n` random words. -/
def RandomWordGenerator.add_words (g : RandomWordGenerator) :
    Nat → Except Fault RandomWordGenerator
  | 0 => .ok g
  | n + 1 =>
    match g.get_random_word with
    | .error e => .error e
    | .ok (w, g2) => RandomWordGenerator.add_words { g2 with words := g2.words ++ [w] } n

/-- Model of `RandomWordGenerator::with_size`: load the pool, then pre-draw `s`
words. -/
def RandomWordGenerator.with_size (s : Nat) (file : Option (List Char))
    (rng : Nat → Nat) : Except Fault RandomWordGenerator :=
  match load_word_list file with
  | .error e => .error e
  | .ok wl =>
    RandomWordGenerator.add_words
      { words := [], size := some s, word_list := wl, rng := rng, rngPos := 0 } s

/-- Frozen lookup on a random generator: absent beyond the materialized
sequence, never grows. -/
def RandomWordGenerator.get_word_at_frozen (g : RandomWordGenerator) (i : Nat) :
    Option Word :=
  if g.words.length ≤ i then none else g.words[i]?

/-- The `StaticWordGenerator` of `app.rs`. -/
structure StaticWordGenerator where
  words : List Word
deriving DecidableEq

/-- Frozen lookup on a static generator. -/
def StaticWordGenerator.get_word_at_frozen (g : StaticWordGenerator) (i : Nat) :
    Option Word :=
  if g.words.length ≤ i then none else g.words[i]?

/-- The `Box<dyn WordGenerator>` of the session: one of the two variants. -/
inductive WordGen where
  | stat (g : StaticWordGenerator)
  | rand (g : RandomWordGenerator)

/-- Dispatched `get_word_at_frozen`. -/
def WordGen.get_word_at_frozen : WordGen → Nat → Option Word
  | .stat g, i => g.get_word_at_frozen i
  | .rand g, i => g.get_word_at_frozen i

/-- Dispatched growing `get_word_at`: the static variant delegates to the
frozen form; the random variant materializes words up to the index.  The
final `self.words[index]` indexing panics when out of bounds (it never is
after growth, but the model keeps the panic). -/
def WordGen.get_word_at : WordGen → Nat → Except Fault (Option Word × WordGen)
  | .stat g, i => .ok (g.get_word_at_frozen i, .stat g)
  | .rand g, i =>
    match (if g.words.length ≤ i then g.add_words (i - g.words.length + 1) else .ok g) with
    | .error e => .error e
    | .ok g2 =>
      match g2.words[i]? with
      | some w => .ok (some w, .rand g2)
      | none => .error (.panicMsg "index out of bounds")

/-- Dispatched `len`: declared length of the target. -/
def WordGen.len : WordGen → Option Nat
  | .stat g => some g.words.length
  | .rand g => g.size

/-- The already-materialized word sequence of either variant. -/
def WordGen.storedWords : WordGen → List Word
  | .stat g => g.words
  | .rand g => g.words

/-- Session lifecycle states. -/
inductive SessionState where
  | Idle
  | Active
  | Finished
deriving DecidableEq

/-- The `Session` of `app.rs` (timing fields hold abstract tick counts). -/
structure Session where
  state : SessionState
  start_time : Option Nat
  duration : Option Nat
  target_words : WordGen
  target_text : List Word
  input : List Word

/-- Model of `Session::from`: split the passage on spaces for both the static
generator and `target_text`; input starts as one empty word. -/
def Session.fromPassage (s : List Char) : Session :=
  { state := .Idle
    start_time := none
    duration := none
    target_words := .stat { words := splitChar ' ' s }
    target_text := splitChar ' ' s
    input := [[]] }

/-- Model of `Session::random_with_size`: random target, empty `target_text`. -/
def Session.random_with_size (s : Nat) (file : Option (List Char))
    (rng : Nat → Nat) : Except Fault Session :=
  match RandomWordGenerator.with_size s file rng with
  | .error e => .error e
  | .ok g =>
    .ok { state := .Idle
          start_time := none
          duration := none
          target_words := .rand g
          target_text := []
          input := [[]] }

/-- Model of `Session::start_session`: asserts Idle (source message uses an
apostrophe; elided here). -/
def Session.start_session (s : Session) (now : Nat) : Except Fault Session :=
  if s.state = .Idle then
    .ok { s with state := .Active, start_time := some now }
  else .error (.panicMsg "Cannot start active or ended session!")

/-- Model of `Session::stop_session`: asserts Active, requires `start_time`. -/
def Session.stop_session (s : Session) (now : Nat) : Except Fault Session :=
  if s.state = .Active then
    match s.start_time with
    | some st => .ok { s with duration := some (now - st), state := .Finished }
    | none => .error (.panicMsg "Start time was never set!")
  else .error (.panicMsg "Session ended before starting!")

/-- Model of `Session::on_char`: implicit start from Idle, assert Active, append the
character to the last input word, then the termination check against the
generator's declared length via growing lookup. -/
def Session.on_char (s : Session) (now : Nat) (c : Char) : Except Fault Session :=
  match (if s.state = .Idle then s.start_session now else .ok s) with
  | .error e => .error e
  | .ok s1 =>
    if s1.state = .Active then
      match s1.input.getLast? with
      | none => .error (.panicMsg "No words in input!")
      | some lw =>
        let input_len := s1.input.length
        let lw2 := lw ++ [c]
        let s2 := { s1 with input := s1.input.dropLast ++ [lw2] }
        if s2.target_words.len = some input_len then
          match s2.target_words.get_word_at (input_len - 1) with
          | .error e => .error e
          | .ok (ow, tw) =>
            let s3 := { s2 with target_words := tw }
            match ow with
            | none => .error (.panicMsg "empty target text!")
            | some w => if w = lw2 then s3.stop_session now else .ok s3
        else .ok s2
    else .error (.panicMsg "Input received before session started!")

/-- Model of `Session::on_space`: no-op while Idle; asserts Active; terminates when
the input length equals `target_text`'s length (NOT the generator's declared
length); otherwise commits a non-empty current word. -/
def Session.on_space (s : Session) (now : Nat) : Except Fault Session :=
  if s.state = .Idle then .ok s
  else if s.state = .Active then
    match s.input.getLast? with
    | none => .error (.panicMsg "No words in input!")
    | some lw =>
      if s.target_text.length = s.input.length then s.stop_session now
      else if lw ≠ [] then .ok { s with input := s.input ++ [[]] }
      else .ok s
  else .error (.panicMsg "Input received before session started!")

/-- Model of `Session::on_del`: asserts Active; drops the last character of the
current word, or drops an empty current word when more than one exists. -/
def Session.on_del (s : Session) : Except Fault Session :=
  if s.state = .Active then
    match s.input.getLast? with
    | none => .error (.panicMsg "No words in input!")
    | some lw =>
      if lw = [] then
        if s.input.length ≠ 1 then .ok { s with input := s.input.dropLast }
        else .ok s
      else .ok { s with input := s.input.dropLast ++ [lw.dropLast] }
  else .error (.panicMsg "Input received before session started!")

/-- Model of `Session::get_final_duration_s` (seconds as a rational). -/
def Session.get_final_duration_s (s : Session) : Option ℚ :=
  s.duration.map (fun d => (d : ℚ))

/-- Model of `Session::get_input_words`: a snapshot of the input. -/
def Session.get_input_words (s : Session) : List Word :=
  s.input

/-- The `for i in 0..l` loop of `get_attempted_words`: pushes the frozen
word at each index, `break`s at the first absent one. -/
def attemptedFrom (tw : WordGen) (i : Nat) : Nat → List Word
  | 0 => []
  | n + 1 =>
    match tw.get_word_at_frozen i with
    | some w => w :: attemptedFrom tw (i + 1) n
    | none => []

/-- Model of `Session::get_attempted_words`: frozen lookups for indices below the
input length, stopping at the first absent index. -/
def Session.get_attempted_words (s : Session) : List Word :=
  attemptedFrom s.target_words 0 s.input.length

/-- The `SessionStats` of `app.rs`; `f32`/`f64` fields modelled over `ℚ`. -/
structure SessionStats where
  wpm : ℚ
  wpm_raw : ℚ
  acc : ℚ
  char_corr : ℤ
  char_total : ℤ
  word_corr : ℤ
  word_total : ℤ
  duration_s : ℚ
deriving DecidableEq

/-- Matching-character count of `word_compare`'s loop: walks both words in
lockstep, stopping at the shorter one. -/
def countEq : List Char → List Char → ℤ
  | a :: as_, b :: bs => (if a = b then 1 else 0) + countEq as_ bs
  | _, _ => 0

/-- Model of `SessionStats::word_compare`: (correct chars, total chars = the longer
length, whole-word correctness). -/
def word_compare (inp targ : Word) : ℤ × ℤ × Bool :=
  let char_corr := countEq inp targ
  let ttl_chars : ℤ :=
    if targ.length > inp.length then (targ.length : ℤ) else (inp.length : ℤ)
  (char_corr, ttl_chars, char_corr == ttl_chars)

/-- The aggregate loop of `SessionStats::from`: pairs input words with
`attempted_words[i]`; indexing past the attempted list panics.  Returns
(char_corr, char_total, word_corr, word_total, correct_word_char_count). -/
def statsLoop : List Word → List Word → Except Fault (ℤ × ℤ × ℤ × ℤ × ℤ)
  | [], _ => .ok (0, 0, 0, 0, 0)
  | _ :: _, [] => .error (.panicMsg "index out of bounds")
  | inw :: ins, att :: atts =>
    match statsLoop ins atts with
    | .error e => .error e
    | .ok (cc, ct, wc, wt, cwcc) =>
      let r := word_compare inw att
      .ok (cc + r.1, ct + r.2.1,
           wc + (if r.2.2 then 1 else 0), wt + 1,
           cwcc + (if r.2.2 then r.2.1 else 0))

/-- Model of `SessionStats::from`: asserts Finished, runs the aggregate loop, applies
the unclamped `word_corr - 1` space adjustment, then the derived figures. -/
def SessionStats.fromSession (s : Session) : Except Fault SessionStats :=
  if s.state = .Finished then
    match statsLoop s.get_input_words s.get_attempted_words with
    | .error e => .error e
    | .ok (cc, ct, wc, wt, cwcc) =>
      let cwcc2 := cwcc + wc - 1
      let cc2 := cc + wc - 1
      let ct2 := ct + wc - 1
      match s.get_final_duration_s with
      | none => .error (.panicMsg "Calculating stats on a session without duration")
      | some dur =>
        let duration_min : ℚ := dur / 60
        .ok { wpm := (cwcc2 : ℚ) / (5 * duration_min)
              wpm_raw := (ct2 : ℚ) / (5 * duration_min)
              acc := (cc2 : ℚ) / (ct2 : ℚ)
              char_corr := cc2
              char_total := ct2
              word_corr := wc
              word_total := wt
              duration_s := dur }
  else .error (.panicMsg "Calculating stats on a session before it is finished")

/-- The three input events of the core. -/
inductive Event where
  | chr (c : Char)
  | space
  | del

/-- One event step, at an abstract timestamp. -/
def Session.step (s : Session) (te : Nat × Event) : Except Fault Session :=
  match te.2 with
  | .chr c => s.on_char te.1 c
  | .space => s.on_space te.1
  | .del => s.on_del

/-- Run a timed event list from a session. -/
def Session.run (s : Session) (evs : List (Nat × Event)) : Except Fault Session :=
  evs.foldlM Session.step s

/-- Did the computation succeed? -/
def isOkE : Except Fault α → Bool
  | .ok _ => true
  | .error _ => false

/-- Did the computation abort with a fatal panic? -/
def isPanicE : Except Fault α → Bool
  | .error (.panicMsg _) => true
  | _ => false

/-- The candidate pool (when there is one) is non-empty. -/
def poolOKb : WordGen → Bool
  | .stat _ => true
  | .rand g => !g.word_list.isEmpty

/-- The structural well-formedness every reachable session enjoys: at least
one input word, a non-empty candidate pool, and a start time once Active. -/
def SessionWF (s : Session) : Prop :=
  s.input ≠ [] ∧ poolOKb s.target_words = true ∧
    (s.state = .Active → s.start_time.isSome = true)

/- ### Concrete scenario sessions -/

/-- Fallback session used only to extract values from `Except`. -/
def sessionD : Session := Session.fromPassage []

/-- C7 / test_3 event script for the passage `"a b cd"`. -/
def c7events : List (Nat × Event) :=
  [(0, .chr 'a'), (0, .space), (0, .chr 'x'), (0, .space), (0, .chr 'c'), (60, .chr 'd')]

/-- C7 scenario run. -/
def c7run : Except Fault Session :=
  (Session.fromPassage ("a b cd".toList)).run c7events

/-- C3 scenario: passage `"ab"`, typed `x` then a boundary at 60 ticks. -/
def c3run : Except Fault Session :=
  (Session.fromPassage ("ab".toList)).run [(0, .chr 'x'), (60, .space)]

/-- The Finished session of the C3 scenario. -/
def c3session : Session := c3run.toOption.getD sessionD

/-- Its statistics record. -/
def c3stats : SessionStats :=
  (SessionStats.fromSession c3session).toOption.getD ⟨0, 0, 0, 0, 0, 0, 0, 0⟩

/-- C1 scenario: a Random source of declared length 1 over the single-word
list `"w"`, typed `x` then a boundary. -/
def c1run : Except Fault Session :=
  (Session.random_with_size 1 (some ("w".toList)) (fun _ => 0)).bind
    (fun s => s.run [(0, .chr 'x'), (0, .space)])

/-- C2 scenario: the C1 scenario continued with a third character, pushing
the input one word past the materialized target sequence. -/
def c2run : Except Fault Session :=
  c1run.bind (fun s => s.on_char 0 'y')

/-- The C1 scenario just before the boundary event: one word typed. -/
def c1mid : Except Fault Session :=
  (Session.random_with_size 1 (some ("w".toList)) (fun _ => 0)).bind
    (fun s => s.on_char 0 'x')

/-- The generator state of the C1/C2 random session after construction. -/
def rgen : RandomWordGenerator :=
  { words := [['w']], size := some 1, word_list := [['w']], rng := fun _ => 0, rngPos := 1 }

/-- The freshly constructed C1/C2 random session. -/
def rsession : Session :=
  (Session.random_with_size 1 (some ("w".toList)) (fun _ => 0)).toOption.getD sessionD

/-- C6 witness event script. -/
def w6events : List (Nat × Event) :=
  [(0, .chr 'a'), (0, .del), (0, .del), (0, .del)]

/-- C6 witness final session. -/
def w6session : Session :=
  ((Session.fromPassage ("ab".toList)).run w6events).toOption.getD sessionD

/- ### Helper lemmas -/

theorem frozen_eq_getElem? (tw : WordGen) (i : Nat) :
    tw.get_word_at_frozen i = tw.storedWords[i]? := by
  cases tw with
  | stat g =>
    simp only [WordGen.get_word_at_frozen, StaticWordGenerator.get_word_at_frozen,
      WordGen.storedWords]
    split
    · exact (List.getElem?_eq_none (by omega)).symm
    · rfl
  | rand g =>
    simp only [WordGen.get_word_at_frozen, RandomWordGenerator.get_word_at_frozen,
      WordGen.storedWords]
    split
    · exact (List.getElem?_eq_none (by omega)).symm
    · rfl

theorem attemptedFrom_eq (tw : WordGen) :
    ∀ (n i : Nat), attemptedFrom tw i n = (tw.storedWords.drop i).take n := by
  intro n
  induction n with
  | zero => intro i; simp [attemptedFrom]
  | succ n ih =>
    intro i
    rw [attemptedFrom, frozen_eq_getElem?]
    cases h : tw.storedWords[i]? with
    | none =>
      have : tw.storedWords.length ≤ i := by
        by_contra hlt
        rw [List.getElem?_eq_getElem (by omega)] at h
        exact Option.noConfusion h
      simp [List.drop_eq_nil_of_le this]
    | some w =>
      have hlt : i < tw.storedWords.length := by
        by_contra hge
        rw [List.getElem?_eq_none (by omega)] at h
        exact Option.noConfusion h
      have hdrop : tw.storedWords.drop i = w :: tw.storedWords.drop (i + 1) := by
        rw [List.drop_eq_getElem_cons hlt]
        rw [List.getElem?_eq_getElem hlt] at h
        simp_all
      rw [hdrop, List.take_succ_cons, ih (i + 1)]

theorem countEq_comm : ∀ a b : List Char, countEq a b = countEq b a := by
  intro a
  induction a with
  | nil => intro b; cases b <;> rfl
  | cons x xs ih =>
    intro b
    cases b with
    | nil => rfl
    | cons y ys =>
      simp only [countEq, ih ys]
      by_cases h : x = y
      · simp [h]
      · have h2 : ¬y = x := fun hyx => h hyx.symm
        simp [h, h2]

/- ### Claim theorems -/

/-- C2 (counterexample): on a reachable Random session whose typist has typed
past the materialized target sequence, `get_attempted_words` is strictly
shorter than the input word list, instead of being padded with empty-string
placeholders to the same length. -/
theorem c2_attempted_shorter_than_input :
    c2run.map (fun s => (s.input.length, s.get_attempted_words.length)) = .ok (2, 1) ∧
      (2 : Nat) ≠ 1 := by
  constructor
  · rfl
  · decide

/-- C2 (amended): `get_attempted_words` returns the frozen target words at
indices `0 .. input.length - 1`, stopping at the first absent index with no
placeholder: it equals the materialized word sequence truncated to the input
length, and can therefore be shorter than the input. -/
theorem c2_attempted_eq_stored_take (s : Session) :
    s.get_attempted_words = s.target_words.storedWords.take s.input.length := by
  rw [Session.get_attempted_words, attemptedFrom_eq, List.drop_zero]

/-- C8: `word_compare` reports identical correct-character counts, total
counts and whole-word correctness under exchange of its two arguments. -/
theorem c8_word_compare_comm (a b : Word) :
    word_compare a b = word_compare b a := by
  have ht : (if b.length > a.length then (b.length : ℤ) else (a.length : ℤ)) =
      (if a.length > b.length then (a.length : ℤ) else (b.length : ℤ)) := by
    split <;> split <;> omega
  simp only [word_compare, countEq_comm a b, ht]

/-- C9: `get_attempted_words` only reads the already-materialized words of a
Random source — it returns a prefix of them and is a pure query (the source
method takes `&self`), so repeated calls agree and no growing lookup is
affected. -/
theorem c9_attempted_frozen_only (s : Session) (g : RandomWordGenerator)
    (h : s.target_words = .rand g) :
    s.get_attempted_words = g.words.take s.input.length ∧
      s.get_attempted_words.length ≤ g.words.length := by
  have he : s.get_attempted_words = g.words.take s.input.length := by
    rw [Session.get_attempted_words, attemptedFrom_eq, List.drop_zero, h,
      WordGen.storedWords]
  exact ⟨he, by rw [he]; exact (List.length_take _ _).le.trans (min_le_right _ _)⟩

/-- C9 witness: the frozen-prefix property evaluated on the concrete Random
session of the scenario runs. -/
theorem c9_attempted_frozen_only_witness :
    rsession.get_attempted_words = rgen.words.take rsession.input.length ∧
      rsession.get_attempted_words.length ≤ rgen.words.length :=
  c9_attempted_frozen_only rsession rgen rfl

/-- C10 (counterexample): loading the word-list content `"a\n\nb"` keeps the
empty middle line as a candidate, and a Random source of size 1 whose draw
lands on it materializes the empty string as its target word. -/
theorem c10_empty_line_drawn :
    (RandomWordGenerator.with_size 1 (some ("a\n\nb".toList)) (fun _ => 1)).map
        (fun g => g.words) = .ok [[]] := by
  rfl

/-- C10 (amended): empty lines are not filtered out of the candidate pool:
for every word-list content containing an empty line — that is, whose
newline split has the empty string as its `j`-th line, wherever that line
sits (leading, interior or trailing) — the loaded pool keeps the empty
candidate at index `j`, and a size-1 Random source whose draw oracle lands
on `j` materializes the empty string as its target word. -/
theorem c10_empty_line_becomes_candidate (content : List Char) (j : Nat)
    (h : (splitChar '\n' content)[j]? = some []) :
    load_word_list (some content) = .ok (splitChar '\n' content) ∧
      (RandomWordGenerator.with_size 1 (some content) (fun _ => j)).map
        (fun g => g.words) = .ok [[]] := by
  refine ⟨rfl, ?_⟩
  have hj : j < (splitChar '\n' content).length := by
    by_contra hge
    rw [List.getElem?_eq_none (by omega)] at h
    exact Option.noConfusion h
  have hlen : ¬(splitChar '\n' content).length = 0 := by omega
  have hmod : j % (splitChar '\n' content).length = j := Nat.mod_eq_of_lt hj
  simp only [RandomWordGenerator.with_size, load_word_list,
    RandomWordGenerator.add_words, RandomWordGenerator.get_random_word, choose,
    if_neg hlen]
  rw [hmod, h]
  simp [RandomWordGenerator.add_words, Except.map]

/-- C10 witness: the general empty-line theorem applied to the concrete
content `"a\n\nb"`, whose interior empty line sits at index 1 of the pool. -/
theorem c10_empty_line_becomes_candidate_witness :
    (splitChar '\n' ("a\n\nb".toList))[1]? = some [] ∧
      (load_word_list (some ("a\n\nb".toList)) = .ok (splitChar '\n' ("a\n\nb".toList)) ∧
        (RandomWordGenerator.with_size 1 (some ("a\n\nb".toList)) (fun _ => 1)).map
          (fun g => g.words) = .ok [[]]) :=
  ⟨by decide, c10_empty_line_becomes_candidate ("a\n\nb".toList) 1 (by decide)⟩

theorem splitChar_ne_nil (sep : Char) (l : List Char) : splitChar sep l ≠ [] := by
  cases l with
  | nil => simp [splitChar]
  | cons c cs =>
    rw [splitChar]
    split
    · simp
    · cases splitChar sep cs <;> simp

theorem add_words_ok (n : Nat) :
    ∀ g : RandomWordGenerator, g.word_list ≠ [] →
      ∃ g2, g.add_words n = .ok g2 ∧ g2.words.length = g.words.length + n ∧
        g2.word_list = g.word_list ∧ g2.size = g.size := by
  induction n with
  | zero => intro g _; exact ⟨g, rfl, by omega, rfl, rfl⟩
  | succ n ih =>
    intro g h
    have hlen : g.word_list.length ≠ 0 := by simpa using h
    have hlt : g.rng g.rngPos % g.word_list.length < g.word_list.length :=
      Nat.mod_lt _ (by omega)
    have hchoose : choose g.word_list (g.rng g.rngPos) =
        some (g.word_list[g.rng g.rngPos % g.word_list.length]) := by
      rw [choose, if_neg hlen, List.getElem?_eq_getElem hlt]
    obtain ⟨g2, hrun, hl, hwl, hsz⟩ :=
      ih { g with rngPos := g.rngPos + 1,
                  words := g.words ++ [g.word_list[g.rng g.rngPos % g.word_list.length]] }
        (by simpa using h)
    have hl2 : g2.words.length = g.words.length + 1 + n := by simpa using hl
    refine ⟨g2, ?_, by omega, by simpa using hwl, by simpa using hsz⟩
    rw [RandomWordGenerator.add_words, RandomWordGenerator.get_random_word, hchoose]
    exact hrun

/-- C5 (counterexample): a Random source whose word-list collaborator is
unreadable fails at construction with a fatal panic — the `.expect` of
`load_word_list` — not with the distinct recoverable typed `loadError` the
claim requires. -/
theorem c5_construction_panics :
    RandomWordGenerator.with_size 1 none (fun _ => 0) =
        .error (.panicMsg "Could read word list file") ∧
      (Fault.panicMsg "Could read word list file").isPanic = true := by
  exact ⟨rfl, rfl⟩

/-- C5 (amended): construction with an unreadable word list aborts with a
fatal panic (never the typed `loadError`); with readable content
construction always succeeds, because splitting yields at least one
candidate line (possibly the empty string), so the empty-pool draw panic is
unreachable from `with_size`. -/
theorem c5_construction_fault_model (size : Nat) (rng : Nat → Nat) :
    RandomWordGenerator.with_size size none rng =
        .error (.panicMsg "Could read word list file") ∧
      ∀ content : List Char,
        isOkE (RandomWordGenerator.with_size size (some content) rng) = true := by
  constructor
  · rfl
  · intro content
    simp only [RandomWordGenerator.with_size, load_word_list]
    obtain ⟨g2, hrun, -⟩ :=
      add_words_ok size
        { words := [], size := some size, word_list := splitChar '\n' content,
          rng := rng, rngPos := 0 }
        (by simpa using splitChar_ne_nil '\n' content)
    rw [hrun]
    rfl

theorem ne_nil_of_getLast?_eq_some {l : List α} {a : α}
    (h : l.getLast? = some a) : l ≠ [] := by
  intro he
  subst he
  simp at h

theorem stop_session_ok_inv {s s' : Session} {now : Nat}
    (h : s.stop_session now = .ok s') :
    s'.input = s.input ∧ s'.state = .Finished ∧ s'.target_words = s.target_words := by
  rw [Session.stop_session] at h
  split at h
  · split at h
    · cases h
      exact ⟨rfl, rfl, rfl⟩
    · cases h
  · cases h

theorem on_char_body_len {s s' : Session} {now : Nat} {c : Char}
    (s1 : Session) (hin : s1.input.length = s.input.length)
    (h : (if s1.state = .Active then
        match s1.input.getLast? with
        | none => (.error (.panicMsg "No words in input!") : Except Fault Session)
        | some lw =>
          if s1.target_words.len = some s1.input.length then
            match s1.target_words.get_word_at (s1.input.length - 1) with
            | .error e => .error e
            | .ok (ow, tw) =>
              match ow with
              | none => .error (.panicMsg "empty target text!")
              | some w =>
                if w = lw ++ [c] then
                  Session.stop_session
                    { s1 with input := s1.input.dropLast ++ [lw ++ [c]],
                              target_words := tw } now
                else .ok { s1 with input := s1.input.dropLast ++ [lw ++ [c]],
                                   target_words := tw }
          else .ok { s1 with input := s1.input.dropLast ++ [lw ++ [c]] }
      else .error (.panicMsg "Input received before session started!")) = .ok s') :
    s'.input.length = s.input.length := by
  split at h
  · cases hgl : s1.input.getLast? with
    | none => simp [hgl] at h
    | some lw =>
      simp only [hgl] at h
      have hne : s1.input ≠ [] := ne_nil_of_getLast?_eq_some hgl
      have hpos := List.length_pos.mpr hne
      split at h
      · cases hga : s1.target_words.get_word_at (s1.input.length - 1) with
        | error e => simp [hga] at h
        | ok p =>
          obtain ⟨ow, tw⟩ := p
          simp only [hga] at h
          cases ow with
          | none => simp at h
          | some w =>
            simp only at h
            split at h
            · obtain ⟨hinp, -, -⟩ := stop_session_ok_inv h
              rw [hinp]
              simp only [List.length_append, List.length_dropLast, List.length_cons,
                List.length_nil]
              omega
            · cases h
              simp only [List.length_append, List.length_dropLast, List.length_cons,
                List.length_nil]
              omega
      · cases h
        simp only [List.length_append, List.length_dropLast, List.length_cons,
          List.length_nil]
        omega
  · cases h

theorem on_char_ok_len {s s' : Session} {now : Nat} {c : Char}
    (h : s.on_char now c = .ok s') : s'.input.length = s.input.length := by
  rw [Session.on_char, Session.start_session] at h
  by_cases hid : s.state = .Idle
  · rw [if_pos hid, if_pos hid] at h
    exact on_char_body_len { s with state := .Active, start_time := some now } rfl h
  · rw [if_neg hid] at h
    exact on_char_body_len s rfl h

theorem on_space_ok_len {s s' : Session} {now : Nat}
    (h : s.on_space now = .ok s') : s.input.length ≤ s'.input.length := by
  rw [Session.on_space] at h
  split at h
  · cases h
    omega
  · split at h
    · cases hgl : s.input.getLast? with
      | none => simp [hgl] at h
      | some lw =>
        simp only [hgl] at h
        split at h
        · obtain ⟨hinp, -, -⟩ := stop_session_ok_inv h
          rw [hinp]
        · split at h
          · cases h
            simp
          · cases h
            omega
    · simp at h

theorem on_del_ok_len {s s' : Session}
    (h : s.on_del = .ok s') : 1 ≤ s'.input.length := by
  rw [Session.on_del] at h
  split at h
  · cases hgl : s.input.getLast? with
    | none => simp [hgl] at h
    | some lw =>
      simp only [hgl] at h
      have hne : s.input ≠ [] := ne_nil_of_getLast?_eq_some hgl
      have hpos := List.length_pos.mpr hne
      split at h
      · split at h
        · cases h
          simp only [List.length_dropLast]
          omega
        · cases h
          omega
      · cases h
        simp
  · simp at h

theorem step_ok_len {s s' : Session} {te : Nat × Event}
    (h : s.step te = .ok s') (h1 : 1 ≤ s.input.length) : 1 ≤ s'.input.length := by
  obtain ⟨t, e⟩ := te
  cases e with
  | chr c =>
    have := on_char_ok_len h
    omega
  | space =>
    have := on_space_ok_len h
    omega
  | del => exact on_del_ok_len h

/-- C6: every successful event sequence from a session with at least one
input word ends with at least one input word (word lengths are naturals in
the model, so no negative-length word can arise). -/
theorem c6_input_length_invariant (s0 : Session) (evs : List (Nat × Event))
    (s1 : Session) (h0 : 1 ≤ s0.input.length) (h : s0.run evs = .ok s1) :
    1 ≤ s1.input.length := by
  induction evs generalizing s0 with
  | nil =>
    rw [Session.run, List.foldlM_nil] at h
    cases h
    exact h0
  | cons te evs ih =>
    rw [Session.run, List.foldlM_cons] at h
    cases hst : s0.step te with
    | error e =>
      rw [hst] at h
      simp [Bind.bind, Except.bind] at h
    | ok s2 =>
      rw [hst] at h
      simp only [Bind.bind, Except.bind] at h
      exact ih s2 (step_ok_len hst h0) h

/-- C6 witness: a fresh Idle session for the passage `"ab"`, typed `a` then
three deletes, still has one (empty) input word. -/
theorem c6_input_length_invariant_witness :
    (Session.fromPassage ("ab".toList)).run w6events = .ok w6session ∧
      1 ≤ w6session.input.length :=
  ⟨rfl, c6_input_length_invariant (Session.fromPassage ("ab".toList)) w6events
    w6session (by decide) rfl⟩

theorem getLast?_exists_of_ne_nil {l : List α} (h : l ≠ []) :
    ∃ a, l.getLast? = some a := by
  cases hq : l.getLast? with
  | none => exact absurd (List.getLast?_eq_none_iff.mp hq) h
  | some a => exact ⟨a, rfl⟩

theorem get_word_at_total (tw : WordGen) (hp : poolOKb tw = true) (L i : Nat)
    (hL : tw.len = some L) (hi : i < L) :
    ∃ w tw2, tw.get_word_at i = .ok (some w, tw2) := by
  cases tw with
  | stat g =>
    have hlen : g.words.length = L := by
      rw [WordGen.len] at hL
      exact Option.some.inj hL
    have hilt : i < g.words.length := by omega
    refine ⟨g.words[i], .stat g, ?_⟩
    rw [WordGen.get_word_at, StaticWordGenerator.get_word_at_frozen,
      if_neg (by omega), List.getElem?_eq_getElem hilt]
  | rand g =>
    have hne : g.word_list ≠ [] := by
      rw [poolOKb] at hp
      simpa using hp
    by_cases hgrow : g.words.length ≤ i
    · obtain ⟨g2, hrun, hlen2, -, -⟩ := add_words_ok (i - g.words.length + 1) g hne
      have hilt : i < g2.words.length := by omega
      refine ⟨g2.words[i], .rand g2, ?_⟩
      have hstep : (WordGen.rand g).get_word_at i =
          (match g2.words[i]? with
            | some w => .ok (some w, .rand g2)
            | none => .error (.panicMsg "index out of bounds")) := by
        rw [WordGen.get_word_at, if_pos hgrow, hrun]
      rw [hstep, List.getElem?_eq_getElem hilt]
    · have hilt : i < g.words.length := by omega
      refine ⟨g.words[i], .rand g, ?_⟩
      have hstep : (WordGen.rand g).get_word_at i =
          (match g.words[i]? with
            | some w => .ok (some w, .rand g)
            | none => .error (.panicMsg "index out of bounds")) := by
        rw [WordGen.get_word_at, if_neg hgrow]
      rw [hstep, List.getElem?_eq_getElem hilt]

theorem stop_session_ok_of {s : Session} (now : Nat) (hst : s.state = .Active)
    (hs : s.start_time.isSome = true) : ∃ s', s.stop_session now = .ok s' := by
  obtain ⟨st, hsome⟩ := Option.isSome_iff_exists.mp hs
  exact ⟨_, by rw [Session.stop_session, if_pos hst, hsome]⟩

theorem on_char_body_ok {now : Nat} {c : Char} (s1 : Session)
    (hst : s1.state = .Active) (hin : s1.input ≠ [])
    (hp : poolOKb s1.target_words = true) (hstart : s1.start_time.isSome = true) :
    isOkE (if s1.state = .Active then
        match s1.input.getLast? with
        | none => (.error (.panicMsg "No words in input!") : Except Fault Session)
        | some lw =>
          if s1.target_words.len = some s1.input.length then
            match s1.target_words.get_word_at (s1.input.length - 1) with
            | .error e => .error e
            | .ok (ow, tw) =>
              match ow with
              | none => .error (.panicMsg "empty target text!")
              | some w =>
                if w = lw ++ [c] then
                  Session.stop_session
                    { s1 with input := s1.input.dropLast ++ [lw ++ [c]],
                              target_words := tw } now
                else .ok { s1 with input := s1.input.dropLast ++ [lw ++ [c]],
                                   target_words := tw }
          else .ok { s1 with input := s1.input.dropLast ++ [lw ++ [c]] }
      else .error (.panicMsg "Input received before session started!")) = true := by
  rw [if_pos hst]
  obtain ⟨lw, hgl⟩ := getLast?_exists_of_ne_nil hin
  rw [hgl]
  simp only
  split
  · rename_i hL
    have hpos := List.length_pos.mpr hin
    obtain ⟨w, tw2, hga⟩ := get_word_at_total s1.target_words hp s1.input.length
      (s1.input.length - 1) hL (by omega)
    rw [hga]
    simp only
    split
    · obtain ⟨s', hstop⟩ := stop_session_ok_of
        (s := { s1 with input := s1.input.dropLast ++ [lw ++ [c]], target_words := tw2 })
        now hst hstart
      rw [hstop]
      rfl
    · rfl
  · rfl

theorem on_char_legal {s : Session} {now : Nat} {c : Char}
    (hso : s.state = .Idle ∨ s.state = .Active) (hin : s.input ≠ [])
    (hp : poolOKb s.target_words = true)
    (hstart : s.state = .Active → s.start_time.isSome = true) :
    isOkE (s.on_char now c) = true := by
  rw [Session.on_char, Session.start_session]
  rcases hso with hid | hact
  · rw [if_pos hid, if_pos hid]
    exact on_char_body_ok { s with state := .Active, start_time := some now }
      rfl hin hp rfl
  · rw [if_neg (by rw [hact]; decide)]
    exact on_char_body_ok s hact hin hp (hstart hact)

theorem on_space_legal {s : Session} {now : Nat}
    (hso : s.state = .Idle ∨ s.state = .Active) (hin : s.input ≠ [])
    (hstart : s.state = .Active → s.start_time.isSome = true) :
    isOkE (s.on_space now) = true := by
  rw [Session.on_space]
  rcases hso with hid | hact
  · rw [if_pos hid]
    rfl
  · rw [if_neg (by rw [hact]; decide), if_pos hact]
    obtain ⟨lw, hgl⟩ := getLast?_exists_of_ne_nil hin
    rw [hgl]
    change isOkE (if s.target_text.length = s.input.length then s.stop_session now
      else if lw ≠ [] then .ok { s with input := s.input ++ [[]] } else .ok s) = true
    split
    · obtain ⟨s', hstop⟩ := stop_session_ok_of now hact (hstart hact)
      rw [hstop]
      rfl
    · split <;> rfl

theorem on_del_legal {s : Session} (hact : s.state = .Active) (hin : s.input ≠ []) :
    isOkE s.on_del = true := by
  rw [Session.on_del, if_pos hact]
  obtain ⟨lw, hgl⟩ := getLast?_exists_of_ne_nil hin
  rw [hgl]
  change isOkE (if lw = [] then
      (if s.input.length ≠ 1 then .ok { s with input := s.input.dropLast } else .ok s)
    else .ok { s with input := s.input.dropLast ++ [lw.dropLast] }) = true
  split
  · split <;> rfl
  · rfl

/-- C4 (counterexample): the delete event applied to a fresh Idle session is
rejected by the `assert_eq!(state, Active)` of `on_del` — it does not
complete without a programming-error fault, although the session is Idle. -/
theorem c4_del_on_idle_panics :
    (Session.fromPassage ("a".toList)).on_del =
      .error (.panicMsg "Input received before session started!") := rfl

/-- C4 (amended): on a well-formed session, character and boundary events
are legal while Idle or Active; the delete event is legal only while Active
and is rejected as a programming-error fault on an Idle session; all three
events applied to a Finished session are rejected as programming-error
faults. -/
theorem c4_event_legality (s : Session) (now : Nat) (c : Char)
    (hwf : SessionWF s) :
    (s.state = .Idle ∨ s.state = .Active →
      isOkE (s.on_char now c) = true ∧ isOkE (s.on_space now) = true) ∧
    (s.state = .Active → isOkE s.on_del = true) ∧
    (s.state = .Idle → isPanicE s.on_del = true) ∧
    (s.state = .Finished →
      isPanicE (s.on_char now c) = true ∧ isPanicE (s.on_space now) = true ∧
        isPanicE s.on_del = true) := by
  obtain ⟨hin, hp, hstart⟩ := hwf
  refine ⟨fun hso => ⟨on_char_legal hso hin hp hstart, on_space_legal hso hin hstart⟩,
    fun hact => on_del_legal hact hin, fun hid => ?_, fun hfin => ⟨?_, ?_, ?_⟩⟩
  · simp [Session.on_del, hid, isPanicE]
  · simp [Session.on_char, Session.start_session, hfin, isPanicE]
  · simp [Session.on_space, hfin, isPanicE]
  · simp [Session.on_del, hfin, isPanicE]

/-- C4 witness: the legality split evaluated on the fresh Idle session for
the passage `"ab"`. -/
theorem c4_event_legality_witness :
    ((Session.fromPassage ("ab".toList)).state = .Idle ∨
        (Session.fromPassage ("ab".toList)).state = .Active →
      isOkE ((Session.fromPassage ("ab".toList)).on_char 0 'q') = true ∧
        isOkE ((Session.fromPassage ("ab".toList)).on_space 0) = true) ∧
    ((Session.fromPassage ("ab".toList)).state = .Active →
      isOkE (Session.fromPassage ("ab".toList)).on_del = true) ∧
    ((Session.fromPassage ("ab".toList)).state = .Idle →
      isPanicE (Session.fromPassage ("ab".toList)).on_del = true) ∧
    ((Session.fromPassage ("ab".toList)).state = .Finished →
      isPanicE ((Session.fromPassage ("ab".toList)).on_char 0 'q') = true ∧
        isPanicE ((Session.fromPassage ("ab".toList)).on_space 0) = true ∧
        isPanicE (Session.fromPassage ("ab".toList)).on_del = true) :=
  c4_event_legality (Session.fromPassage ("ab".toList)) 0 'q'
    ⟨by decide, rfl, fun h => by cases h⟩

/-- C1: on a Random session of declared length 1, after one (wrong) typed
word the input word count equals the declared length, yet the boundary event
leaves the session Active instead of Finished — `on_space` compares against
the `target_text` passage counter (empty for Random sources), not against
the generator's declared length, so the two event paths use different
notions of target length. -/
theorem c1_random_boundary_never_finishes :
    c1mid.map (fun s => (s.input.length, s.target_words.len,
        decide (s.state = .Active))) = .ok (1, some 1, true) ∧
      c1run.map (fun s => (decide (s.state = .Finished),
        decide (s.state = .Active), s.input.length)) = .ok (false, true, 2) :=
  ⟨rfl, rfl⟩

/-- C7: the scored-mismatch scenario — passage `"a b cd"` typed as `a`,
boundary, `x`, boundary, `c`, `d` — yields input `["a","x","cd"]`, a
Finished session, statistics (4, 5, 2, 3), and an accuracy of exactly 4/5,
which is within 1e-4 of 0.8. -/
theorem c7_scored_mismatch_scenario :
    c7run.map (fun s => (s.get_input_words, decide (s.state = .Finished))) =
        .ok (["a".toList, "x".toList, "cd".toList], true) ∧
      (c7run.bind SessionStats.fromSession).map
          (fun st => (st.char_corr, st.char_total, st.word_corr, st.word_total,
            st.acc)) = .ok (4, 5, 2, 3, (4 : ℚ)/5) ∧
      |(4 : ℚ)/5 - 0.8| < 1/10000 := by
  refine ⟨rfl, by rfl, by norm_num⟩

/-- C3 (counterexample): for the Finished session of passage `"ab"` typed as
the single wrong word `x` then a boundary, `wordCorrect = 0` and the
unclamped `wordCorrect - 1` adjustment pushes `charCorrect` to `-1`, below
zero. -/
theorem c3_char_corr_negative :
    (c3run.bind SessionStats.fromSession).map
        (fun st => (st.char_corr, st.char_total, st.word_corr)) = .ok (-1, 1, 0) ∧
      (-1 : ℤ) < 0 :=
  ⟨by rfl, by decide⟩

theorem countEq_nonneg : ∀ a b : List Char, 0 ≤ countEq a b := by
  intro a
  induction a with
  | nil => intro b; cases b <;> simp [countEq]
  | cons x xs ih =>
    intro b
    cases b with
    | nil => simp [countEq]
    | cons y ys =>
      rw [countEq]
      have := ih ys
      split <;> omega

theorem word_compare_ttl_nonneg (a b : Word) : 0 ≤ (word_compare a b).2.1 := by
  rw [word_compare]
  simp only
  split <;> positivity

theorem word_compare_incorrect_ttl_pos (a b : Word)
    (h : (word_compare a b).2.2 = false) : 1 ≤ (word_compare a b).2.1 := by
  rcases Nat.eq_zero_or_pos a.length with ha | ha
  · rcases Nat.eq_zero_or_pos b.length with hb | hb
    · rw [List.length_eq_zero] at ha hb
      subst ha
      subst hb
      simp [word_compare, countEq] at h
    · rw [word_compare]
      simp only
      split <;> omega
  · rw [word_compare]
    simp only
    split <;> omega

theorem statsLoop_bounds :
    ∀ (inw att : List Word) (cc ct wc wt cwcc : ℤ),
      statsLoop inw att = .ok (cc, ct, wc, wt, cwcc) →
      0 ≤ cc ∧ 0 ≤ wc ∧ wc ≤ wt ∧ wt = (inw.length : ℤ) ∧ wt - wc ≤ ct := by
  intro inw
  induction inw with
  | nil =>
    intro att cc ct wc wt cwcc h
    rw [statsLoop] at h
    cases h
    simp
  | cons w ws ih =>
    intro att cc ct wc wt cwcc h
    cases att with
    | nil => rw [statsLoop] at h; cases h
    | cons a as_ =>
      rw [statsLoop] at h
      cases hr : statsLoop ws as_ with
      | error e => rw [hr] at h; cases h
      | ok q =>
        obtain ⟨cc0, ct0, wc0, wt0, cwcc0⟩ := q
        rw [hr] at h
        simp only at h
        obtain ⟨h1, h2, h3, h4, h5⟩ :
            cc0 + (word_compare w a).1 = cc ∧
              ct0 + (word_compare w a).2.1 = ct ∧
              wc0 + (if (word_compare w a).2.2 then 1 else 0) = wc ∧
              wt0 + 1 = wt ∧
              cwcc0 + (if (word_compare w a).2.2 then (word_compare w a).2.1 else 0) =
                cwcc := by
          cases h
          exact ⟨rfl, rfl, rfl, rfl, rfl⟩
        obtain ⟨hcc, hwc, hwcwt, hwt, hct⟩ := ih as_ cc0 ct0 wc0 wt0 cwcc0 hr
        have httlnn := word_compare_ttl_nonneg w a
        have hfst : (word_compare w a).1 = countEq w a := rfl
        have hcorr0 : 0 ≤ (word_compare w a).1 := by
          rw [hfst]
          exact countEq_nonneg w a
        simp only [List.length_cons]
        cases hb : (word_compare w a).2.2 with
        | true =>
          rw [hb] at h3 h5
          simp at h3 h5
          push_cast
          omega
        | false =>
          have httl1 := word_compare_incorrect_ttl_pos w a hb
          rw [hb] at h3 h5
          simp at h3 h5
          push_cast
          omega

/-- C3 (amended): no clamp is applied — `charCorrect` (and the internal
correct-word character count) can be pushed to `-1` when `wordCorrect = 0` —
but for every session with at least one input word whose statistics are
computed, `charTotal` stays non-negative and `charCorrect` never drops below
`-1`. -/
theorem c3_stats_bounds (s : Session) (st : SessionStats)
    (hlen : 1 ≤ s.input.length)
    (h : SessionStats.fromSession s = .ok st) :
    0 ≤ st.char_total ∧ -1 ≤ st.char_corr := by
  rw [SessionStats.fromSession] at h
  split at h
  · cases hsl : statsLoop s.get_input_words s.get_attempted_words with
    | error e => rw [hsl] at h; cases h
    | ok q =>
      obtain ⟨cc, ct, wc, wt, cwcc⟩ := q
      rw [hsl] at h
      simp only at h
      cases hd : s.get_final_duration_s with
      | none => rw [hd] at h; cases h
      | some dur =>
        rw [hd] at h
        simp only at h
        obtain ⟨hb1, hb2, hb3, hb4, hb5⟩ := statsLoop_bounds _ _ _ _ _ _ _ hsl
        have hwt : wt = (s.input.length : ℤ) := by
          rw [hb4]
          rfl
        have hcc : st.char_corr = cc + wc - 1 := by cases h; rfl
        have hct : st.char_total = ct + wc - 1 := by cases h; rfl
        omega
  · cases h

/-- C3 witness: the bounds applied to the concrete Finished session of the
counterexample scenario, whose `charTotal` is 0-bounded while `charCorrect`
sits exactly at the `-1` floor. -/
theorem c3_stats_bounds_witness :
    1 ≤ c3session.input.length ∧
      SessionStats.fromSession c3session = .ok c3stats ∧
      (0 ≤ c3stats.char_total ∧ -1 ≤ c3stats.char_corr) :=
  ⟨by decide, by rfl, c3_stats_bounds c3session c3stats (by decide) (by rfl)⟩

end TermType
